import Mathlib

/-!
Shallow embedding of `spconv/__init__.py` (the SparseConvTensor value object,
its dense conversions and its rulebook cache), together with a model of the
rulebook builder that the spec describes for the precompiled native library.

Conventions of the embedding:
* a tensor index ("coordinate") is a `List Nat`; a full coordinate of a
  channel-last dense tensor is `batch :: spatial ++ [channel]`;
* a dense array of shape `s` is modelled as its shape together with the entry
  function on index tuples (`DenseTensor`); only in-bounds indices are
  meaningful;
* feature values are integers (`Int`): the claims under study are about
  index bookkeeping, not floating-point arithmetic, and every statement
  proved is value-generic;
* Python advanced-indexing assignment `ret[slices] = updates` is modelled
  sequentially: update rows are written in order, so of several rows carrying
  the same index the last one ends up in the array.
-/

/-- Row-major enumeration of all index tuples of a given shape, in
lexicographic order (the order `torch.Tensor.to_sparse` reports nonzero
element coordinates in). -/
def allCoords : List Nat → List (List Nat)
  | [] => [[]]
  | n :: rest => (List.range n).flatMap (fun i => (allCoords rest).map (fun c => i :: c))

/-- Boolean bounds check: the index tuple has the arity of the shape and is
componentwise below it. -/
def inBoundsB : List Nat → List Nat → Bool
  | [], [] => true
  | n :: rest, i :: c => decide (i < n) && inBoundsB rest c
  | _, [] => false
  | [], _ => false

/-- Model of `np.prod` on a shape list (src/spconv/__init__.py:127,151). -/
def npProd (l : List Nat) : Nat := l.foldl (· * ·) 1

/-- Shallow embedding of `scatter_nd(indices, updates, shape)`
(src/spconv/__init__.py:39-52) in the form it is used by
`SparseConvTensor.dense`: `indices` is an N×ndim index matrix and `updates`
an N-row update matrix, and the result — a zero-filled array with
`ret[slices] = updates` performed on it — is viewed as the function sending
an index tuple `pos` to the row stored at `pos`.  The fold applies the update
rows in order, so a later row with the same index silently overwrites an
earlier one; as the source docstring warns, the function has no
error-handling path for repeated indices ("don't contain except handle
code", "don't support repeat add").  Absent positions keep the zero row of
width `C`. -/
def scatter_nd (indices : List (List Nat)) (updates : List (List Int)) (C : Nat)
    (pos : List Nat) : List Int :=
  (indices.zip updates).foldl
    (fun acc p => if p.1 = pos then p.2 else acc) (List.replicate C 0)

/-- Channel-last dense array: its shape and its entry at each index tuple. -/
structure DenseTensor where
  shape : List Nat
  entry : List Nat → Int

/-- Model of `torch.Tensor.permute(*p)` on the `DenseTensor` view: axis `t`
of the result is axis `p[t]` of the argument, so the result's entry at `idx`
reads the argument at the index tuple whose component along axis `j` is the
component of `idx` along the (unique) `t` with `p[t] = j`. -/
def permuteDense (d : DenseTensor) (p : List Nat) : DenseTensor where
  shape := p.map (fun j => d.shape.getD j 0)
  entry := fun idx =>
    d.entry ((List.range p.length).map (fun j => idx.getD (p.findIdx (· == j)) 0))

/-- Model of Python `list.insert(i, v)` as used to build the permutation
`trans_params` in `SparseConvTensor.dense` (src/spconv/__init__.py:145-146). -/
def listInsert (i v : Nat) (l : List Nat) : List Nat :=
  l.take i ++ v :: l.drop i

/-- Model of the rulebook the spec's Rulebook Builder produces: the input
active-site coordinate set, the output active-site coordinate set, and the
`(kernel-offset index, input-site index, output-site index)` pairs. -/
structure Rulebook where
  inCoords : List (List Nat)
  outCoords : List (List Nat)
  pairs : List (Nat × Nat × Nat)
deriving DecidableEq

/-- Shallow embedding of the `SparseConvTensor` value object
(src/spconv/__init__.py:55-72).  `features` is the N×C feature matrix as a
row list; `featChannels` records the matrix's column count C (a torch tensor
of shape `[N, C]` carries C even when N = 0, which a bare row list does
not); `indices` is the N×(ndim+1) coordinate matrix, each row
`batch :: spatial`; `indice_dict` is the rulebook cache; `grid` the optional
pre-allocated grid buffer (its contents are never read by the code under
study, so it is modelled as an opaque handle). -/
structure SparseConvTensor where
  features : List (List Int)
  featChannels : Nat
  indices : List (List Nat)
  spatial_shape : List Nat
  batch_size : Nat
  indice_dict : List (Nat × Rulebook)
  grid : Option Nat
deriving DecidableEq

/-- Embedding of `SparseConvTensor.__init__` (src/spconv/__init__.py:56-72):
stores the given fields and initializes the rulebook cache `indice_dict` to
the empty dict. -/
def mkSparseConvTensor (features : List (List Int)) (featChannels : Nat)
    (indices : List (List Nat)) (spatial_shape : List Nat) (batch_size : Nat)
    (grid : Option Nat) : SparseConvTensor :=
  { features := features, featChannels := featChannels, indices := indices,
    spatial_shape := spatial_shape, batch_size := batch_size,
    indice_dict := [], grid := grid }

/-- Activity predicate realized by `x.to_sparse()` inside
`SparseConvTensor.to_sparse_dim` (src/spconv/__init__.py:74-92): a
batch+spatial position contributes a coordinate exactly when at least one of
its `C` channel values is nonzero (to_sparse records nonzero scalar entries
only). -/
def activeAtB (x : DenseTensor) (C : Nat) (pos : List Nat) : Bool :=
  (List.range C).any (fun ch => x.entry (pos ++ [ch]) != 0)

/-- Feature row extracted for one active position by `to_sparse_dim`
(src/spconv/__init__.py:74-92): the sparse reconstruction
`torch.sparse.FloatTensor(tmp, values, [N, C]).to_dense()` places each
recorded nonzero `(position, channel)` value at `(group row, channel)` and
zero-fills the rest, which is exactly the dense input's channel vector at
the position. -/
def featureRow (x : DenseTensor) (C : Nat) (pos : List Nat) : List Int :=
  (List.range C).map (fun ch => x.entry (pos ++ [ch]))

/-- Embedding of `SparseConvTensor.to_sparse_dim` composed into
`SparseConvTensor.from_dense` (src/spconv/__init__.py:74-123): `to_sparse()`
lists the nonzero elements of `x` in lexicographic coordinate order;
`unique_consecutive` over the coordinates with the channel axis dropped
collapses them to the distinct batch+spatial positions holding at least one
nonzero channel, still in lexicographic order — the same list as filtering
the row-major enumeration of all positions by the activity predicate. -/
def activeCoords (x : DenseTensor) : List (List Nat) :=
  (allCoords (x.shape.headD 0 :: (x.shape.drop 1).dropLast)).filter
    (fun pos => activeAtB x (x.shape.getLastD 0) pos)

/-- Embedding of `SparseConvTensor.from_dense` (src/spconv/__init__.py:94-123)
for a channel-last dense tensor: spatial shape is `x.shape[1:-1]`, batch size
`x.shape[0]`; the coordinate rows and feature rows come from
`to_sparse_dim`, and the class constructor is called (grid defaulted to
None). -/
def SparseConvTensor.from_dense (x : DenseTensor) : SparseConvTensor :=
  let batch := x.shape.headD 0
  let spatial := (x.shape.drop 1).dropLast
  let C := x.shape.getLastD 0
  let coords := activeCoords x
  mkSparseConvTensor (coords.map (featureRow x C)) C coords spatial batch none

/-- Embedding of the `SparseConvTensor.spatial_size` property
(src/spconv/__init__.py:125-127). -/
def SparseConvTensor.spatial_size (t : SparseConvTensor) : Nat :=
  npProd t.spatial_shape

/-- Embedding of `SparseConvTensor.find_indice_pair`
(src/spconv/__init__.py:129-134): None key gives None; a key present in the
cache dict gives its stored rulebook; an absent key gives None. -/
def SparseConvTensor.find_indice_pair (t : SparseConvTensor) (key : Option Nat) :
    Option Rulebook :=
  match key with
  | none => none
  | some k =>
    match t.indice_dict.lookup k with
    | some v => some v
    | none => none

/-- Embedding of `SparseConvTensor.dense` before the channels-first permute
(src/spconv/__init__.py:136-141): the scatter of the feature rows at the
coordinate rows into a zero array of shape
`[batch_size] + spatial_shape + [features.shape[1]]`, viewed entrywise.  An
entry index splits as `pos ++ [ch]`: the row scattered at `pos`, read at
channel `ch`. -/
def SparseConvTensor.denseCL (t : SparseConvTensor) : DenseTensor where
  shape := t.batch_size :: t.spatial_shape ++ [t.featChannels]
  entry := fun c =>
    (scatter_nd t.indices t.features t.featChannels c.dropLast).getD (c.getLastD 0) 0

/-- Embedding of `SparseConvTensor.dense(channels_first)`
(src/spconv/__init__.py:136-147): channel-last scatter result, then, when
`channels_first` is requested, the permute by
`trans_params = list(range(ndim + 1)); trans_params.insert(1, ndim + 1)`. -/
def SparseConvTensor.dense (t : SparseConvTensor) (channels_first : Bool) : DenseTensor :=
  let res := t.denseCL
  if channels_first = false then res
  else
    permuteDense res (listInsert 1 (t.spatial_shape.length + 1)
      (List.range (t.spatial_shape.length + 1)))

/-- Embedding of `ToDense.forward` (src/spconv/__init__.py:172-176): calls
`x.dense()` with the default `channels_first=True`. -/
def ToDense_forward (x : SparseConvTensor) : DenseTensor :=
  x.dense true

/-- Embedding of `ToSparse.forward` (src/spconv/__init__.py:166-168). -/
def ToSparse_forward (x : DenseTensor) : SparseConvTensor :=
  SparseConvTensor.from_dense x

/-- Embedding of `RemoveGrid.forward` (src/spconv/__init__.py:179-184): sets
`x.grid = None` and returns `x`; in the value-object model, the result is
the argument with only the `grid` field replaced. -/
def RemoveGrid_forward (x : SparseConvTensor) : SparseConvTensor :=
  { x with grid := none }

/-- Embedding of the `SparseConvTensor.sparity` property
(src/spconv/__init__.py:149-152): `indices.shape[0] / np.prod(spatial_shape)
/ batch_size`, as exact rational division. -/
def SparseConvTensor.sparity (t : SparseConvTensor) : ℚ :=
  (t.indices.length : ℚ) / (npProd t.spatial_shape : ℚ) / (t.batch_size : ℚ)

/-- Modelled from the spec: the convolution configuration handed to the
Rulebook Builder (spec section 4.2), whose implementation lives in the
precompiled native library `libspconv.so` and is not among the repository's
source files.  All lists have one entry per spatial dimension. -/
structure ConvConfig where
  kernel : List Nat
  stride : List Nat
  padding : List Nat
  dilation : List Nat
  outShape : List Nat
deriving DecidableEq

/-- Modelled from the spec: the convolution modes of the Rulebook Builder
(spec section 4.2). -/
inductive ConvMode
  | regular
  | submanifold
  | inverse
deriving DecidableEq

/-- Modelled from the spec: kernel offsets "enumerated in a fixed canonical
order (row-major over kernel dims)" (spec section 3, Kernel Offset). -/
def kernelOffsets (kshape : List Nat) : List (List Nat) :=
  allCoords kshape

/-- Modelled from the spec: the per-dimension candidate output component of
the regular-mode rule "(input_coord + offset*dilation - padding) / stride
when evenly divisible and in-bounds of the output spatial shape" (spec
section 4.2). -/
def candDim (cfg : ConvConfig) (j s o : Nat) : Option Nat :=
  let st : Int := (cfg.stride.getD j 1 : Nat)
  let v : Int := (s : Int) + (o : Int) * (cfg.dilation.getD j 1 : Nat) -
    (cfg.padding.getD j 0 : Nat)
  if 0 ≤ v ∧ v % st = 0 ∧ v / st < (cfg.outShape.getD j 0 : Nat) then
    some (v / st).toNat
  else none

/-- Modelled from the spec: the candidate output coordinate for one input
site and one kernel offset; the batch component passes through unchanged
(spec sections 4.2 and 8, "no rulebook pair may connect sites with different
batch indices"). -/
def candidateOut (cfg : ConvConfig) (pos off : List Nat) : Option (List Nat) :=
  match pos with
  | [] => none
  | b :: sp =>
    ((List.range sp.length).mapM
      (fun j => candDim cfg j (sp.getD j 0) (off.getD j 0))).map (fun out => b :: out)

/-- Modelled from the spec: the Coordinate Hash Grid contract
`insert_or_get(coordinate) -> index` — "returns the existing index if
present, else allocates the next sequential index and records the mapping"
(spec section 4.1); the grid is the list of coordinates in index-assignment
order. -/
def insert_or_get (grid : List (List Nat)) (c : List Nat) :
    List (List Nat) × Nat :=
  match grid.findIdx? (· == c) with
  | some i => (grid, i)
  | none => (grid ++ [c], grid.length)

/-- Modelled from the spec: regular-mode rulebook build (spec section 4.2):
"for every input active site and every kernel offset, compute the candidate
output coordinate ...; each valid candidate is inserted into a fresh Hash
Grid for the output ... and each (offset, input-index, newly-assigned-
output-index) triple becomes a rulebook pair", sites and offsets visited in
the deterministic ascending order the spec requires. -/
def buildRegular (coords : List (List Nat)) (cfg : ConvConfig) : Rulebook :=
  let offs := (kernelOffsets cfg.kernel).enum
  (coords.enum).foldl
    (fun rb ic =>
      offs.foldl
        (fun rb oc =>
          match candidateOut cfg ic.2 oc.2 with
          | none => rb
          | some outc =>
            let g := insert_or_get rb.outCoords outc
            { rb with outCoords := g.1, pairs := rb.pairs ++ [(oc.1, ic.1, g.2)] })
        rb)
    { inCoords := coords, outCoords := [], pairs := [] }

/-- Modelled from the spec: submanifold-mode rulebook build (spec
section 4.2): the output grid is a copy of the input coordinates; each
candidate coordinate is looked up in that grid and only offsets landing on
an existing active site produce pairs; no new coordinates are created. -/
def buildSubmanifold (coords : List (List Nat)) (cfg : ConvConfig) : Rulebook :=
  let offs := (kernelOffsets cfg.kernel).enum
  { inCoords := coords, outCoords := coords,
    pairs :=
      (coords.enum).foldl
        (fun ps ic =>
          offs.foldl
            (fun ps oc =>
              match candidateOut cfg ic.2 oc.2 with
              | none => ps
              | some outc =>
                match coords.findIdx? (· == outc) with
                | some oi => ps ++ [(oc.1, ic.1, oi)]
                | none => ps)
            ps)
        [] }

/-- Modelled from the spec: the full Rulebook Builder contract
`build(input_coords, kernel config, mode) -> Rulebook` (spec section 4.2);
inverse mode consumes the cached forward rulebook, swapping input/output
roles, and is a `MissingRulebookError` when no forward rulebook was cached
for the key (spec sections 4.2 and 7). -/
def buildRulebook (coords : List (List Nat)) (cfg : ConvConfig) (mode : ConvMode)
    (cached : Option Rulebook) : Except String Rulebook :=
  match mode with
  | .regular => .ok (buildRegular coords cfg)
  | .submanifold => .ok (buildSubmanifold coords cfg)
  | .inverse =>
    match cached with
    | some fwd =>
      .ok { inCoords := fwd.outCoords, outCoords := fwd.inCoords,
            pairs := fwd.pairs.map (fun p => (p.1, p.2.2, p.2.1)) }
    | none => .error "MissingRulebookError: no cached forward rulebook for this key"

/-- Concrete tensor with two equal coordinate rows (batch 0, position 0 of a
1-D spatial shape `[2]`) carrying the distinct feature rows `[1]` and `[2]`:
the input that exercises `scatter_nd`'s repeated-index behaviour. -/
def tC1 : SparseConvTensor :=
  mkSparseConvTensor [[1], [2]] 1 [[0, 0], [0, 0]] [2] 1 none

/-- Concrete channel-last dense input of shape `[1, 2, 1]` whose position
`(0, 0)` holds the all-zero feature vector and whose position `(0, 1)` holds
the value 5. -/
def xC2 : DenseTensor where
  shape := [1, 2, 1]
  entry := fun c => if c = [0, 1, 0] then 5 else 0

/-- Concrete distinct-coordinate tensor: one active site at batch 0,
position 1 of the 1-D spatial shape `[2]`, feature row `[5]`. -/
def tC3 : SparseConvTensor :=
  mkSparseConvTensor [[5]] 1 [[0, 1]] [2] 1 none

/-- Concrete channel-last dense input of shape `[1, 2, 1]` used to
instantiate the dense/sparse round trip. -/
def xC9 : DenseTensor where
  shape := [1, 2, 1]
  entry := fun c => if c = [0, 1, 0] then 7 else 0

/-- Concrete convolution configuration of the spec's section 8 example
scenario: 3×3 kernel, stride 1, padding 1, dilation 1, on a 2×2 spatial
domain. -/
def cfgC7 : ConvConfig :=
  { kernel := [3, 3], stride := [1, 1], padding := [1, 1],
    dilation := [1, 1], outShape := [2, 2] }

/-! Helper lemmas shared by the claim theorems. -/

/-- Model of np.prod agrees with the list product. -/
theorem npProd_eq_prod (l : List Nat) : npProd l = l.prod :=
  List.prod_eq_foldl.symm

/-- Reading any position of the zero row gives zero. -/
theorem getD_replicate_zero (C ch : Nat) :
    (List.replicate C (0 : Int)).getD ch 0 = 0 := by
  induction C generalizing ch with
  | zero => cases ch <;> rfl
  | succ n ih =>
    cases ch with
    | zero => rfl
    | succ m => simp [List.replicate_succ, ih m]

/-- The scatter fold leaves the accumulator alone when no processed pair
carries the looked-up index. -/
theorem scatter_foldl_const (pos : List Nat) (l : List (List Nat × List Int))
    (acc : List Int) (h : ∀ p ∈ l, p.1 ≠ pos) :
    l.foldl (fun b p => if p.1 = pos then p.2 else b) acc = acc := by
  induction l generalizing acc with
  | nil => rfl
  | cons a l ih =>
    rw [List.foldl_cons, if_neg (h a (List.mem_cons_self a l))]
    exact ih acc fun p hp => h p (List.mem_cons_of_mem a hp)

/-- A position that never occurs among the index rows keeps the zero row. -/
theorem scatter_nd_not_mem (indices : List (List Nat)) (updates : List (List Int))
    (C : Nat) (pos : List Nat) (h : pos ∉ indices) :
    scatter_nd indices updates C pos = List.replicate C 0 := by
  apply scatter_foldl_const
  intro p hp hep
  exact h (hep ▸ (List.of_mem_zip hp).1)

/-- Sequential-assignment semantics of `scatter_nd`: the row written at a
position is the update row aligned with the LAST index row equal to that
position; any earlier rows at the same position are silently overwritten. -/
theorem scatter_nd_last (l₁ l₂ : List (List Nat)) (u₁ u₂ : List (List Int))
    (r : List Int) (C : Nat) (pos : List Nat)
    (hlen : l₁.length = u₁.length) (hlast : pos ∉ l₂) :
    scatter_nd (l₁ ++ pos :: l₂) (u₁ ++ r :: u₂) C pos = r := by
  unfold scatter_nd
  rw [List.zip_append hlen, List.foldl_append, List.zip_cons_cons,
    List.foldl_cons, if_pos rfl]
  apply scatter_foldl_const
  intro p hp hep
  exact hlast (hep ▸ (List.of_mem_zip hp).1)

/-- When every update row is computed from its index row by one function `f`,
the scatter result at any present position is `f` of it (duplicates all
carry the same row, so no overwrite is observable). -/
theorem scatter_nd_map_mem (f : List Nat → List Int) (pos : List Nat) :
    ∀ (coords : List (List Nat)) (acc : List Int), pos ∈ coords →
      (coords.zip (coords.map f)).foldl
        (fun b p => if p.1 = pos then p.2 else b) acc = f pos := by
  intro coords
  induction coords with
  | nil => intro acc h; cases h
  | cons a l ih =>
    intro acc h
    rw [List.map_cons, List.zip_cons_cons, List.foldl_cons]
    by_cases hmem : pos ∈ l
    · exact ih _ hmem
    · have ha : a = pos := by
        rcases List.mem_cons.mp h with h' | h'
        · exact h'.symm
        · exact absurd h' hmem
      rw [if_pos ha,
        scatter_foldl_const pos _ _
          (fun p hp hep => hmem (hep ▸ (List.of_mem_zip hp).1)), ha]

/-- The scatter result at a present position, for functionally generated
update rows. -/
theorem scatter_nd_map (coords : List (List Nat)) (f : List Nat → List Int)
    (C : Nat) (pos : List Nat) (h : pos ∈ coords) :
    scatter_nd coords (coords.map f) C pos = f pos :=
  scatter_nd_map_mem f pos coords (List.replicate C 0) h

/-- Unfolding equation of the bounds check on two cons cells. -/
theorem inBoundsB_cons (n : Nat) (rest : List Nat) (i : Nat) (c : List Nat) :
    inBoundsB (n :: rest) (i :: c) = (decide (i < n) && inBoundsB rest c) := rfl

/-- A nonempty shape rejects the empty index tuple. -/
theorem inBoundsB_cons_nil (n : Nat) (rest : List Nat) :
    inBoundsB (n :: rest) [] = false := rfl

/-- The empty shape rejects any nonempty index tuple. -/
theorem inBoundsB_nil_cons (i : Nat) (c : List Nat) :
    inBoundsB [] (i :: c) = false := rfl

/-- Membership in the row-major enumeration is exactly the bounds check. -/
theorem mem_allCoords (shape : List Nat) :
    ∀ c, c ∈ allCoords shape ↔ inBoundsB shape c = true := by
  induction shape with
  | nil =>
    intro c
    cases c with
    | nil => simp [allCoords, inBoundsB]
    | cons i c => simp [allCoords, inBoundsB]
  | cons n rest ih =>
    intro c
    cases c with
    | nil => simp [allCoords, inBoundsB, List.mem_flatMap]
    | cons i c =>
      simp only [allCoords, List.mem_flatMap, List.mem_map, List.mem_range,
        inBoundsB_cons, Bool.and_eq_true, decide_eq_true_eq]
      constructor
      · rintro ⟨a, ha, c', hc', heq⟩
        injection heq with h1 h2
        subst h1
        subst h2
        exact ⟨ha, (ih _).mp hc'⟩
      · rintro ⟨hi, hc⟩
        exact ⟨i, hi, c, (ih c).mpr hc, rfl⟩

/-- The row-major enumeration lists each index tuple once. -/
theorem nodup_allCoords (shape : List Nat) : (allCoords shape).Nodup := by
  induction shape with
  | nil => simp [allCoords]
  | cons n rest ih =>
    rw [allCoords, List.nodup_flatMap]
    constructor
    · intro i _
      exact ih.map fun a b h => by injection h
    · apply List.Pairwise.imp ?_ (List.nodup_range n)
      intro a b hab x hxa hxb
      rcases List.mem_map.mp hxa with ⟨ca, _, rfl⟩
      rcases List.mem_map.mp hxb with ⟨cb, _, hb⟩
      exact hab (by injection hb.symm)

/-- A bounds check against a shape ending in a channel axis splits the index
tuple into its position part and its channel. -/
theorem inBoundsB_concat (y : Nat) :
    ∀ (zs : List Nat) (c : List Nat), inBoundsB (zs ++ [y]) c = true ↔
      ∃ pos ch, c = pos ++ [ch] ∧ inBoundsB zs pos = true ∧ ch < y := by
  intro zs
  induction zs with
  | nil =>
    intro c
    cases c with
    | nil =>
      rw [List.nil_append]
      constructor
      · intro h
        rw [inBoundsB_cons_nil] at h
        cases h
      · rintro ⟨pos, ch, heq, -, -⟩
        exact absurd heq.symm (by simp)
    | cons i c' =>
      cases c' with
      | nil =>
        rw [List.nil_append, inBoundsB_cons]
        constructor
        · intro h
          refine ⟨[], i, rfl, rfl, ?_⟩
          have h1 := ((Bool.and_eq_true _ _).mp h).1
          simpa using h1
        · rintro ⟨pos, ch, heq, hpos, hch⟩
          cases pos with
          | cons a b =>
            rw [inBoundsB_nil_cons] at hpos
            cases hpos
          | nil =>
            obtain rfl : i = ch := by injection heq
            simp [hch, inBoundsB]
      | cons j c'' =>
        rw [List.nil_append, inBoundsB_cons]
        constructor
        · intro h
          have h2 := ((Bool.and_eq_true _ _).mp h).2
          rw [inBoundsB_nil_cons] at h2
          cases h2
        · rintro ⟨pos, ch, heq, hpos, hch⟩
          cases pos with
          | nil =>
            injection heq with h1 h2
            cases h2
          | cons a b =>
            rw [inBoundsB_nil_cons] at hpos
            cases hpos
  | cons z zs ih =>
    intro c
    cases c with
    | nil =>
      rw [List.cons_append]
      constructor
      · intro h
        rw [inBoundsB_cons_nil] at h
        cases h
      · rintro ⟨pos, ch, heq, -, -⟩
        exact absurd heq.symm (by simp)
    | cons i c' =>
      rw [List.cons_append, inBoundsB_cons, Bool.and_eq_true, decide_eq_true_eq,
        ih c']
      constructor
      · rintro ⟨hi, pos, ch, rfl, hpos, hch⟩
        refine ⟨i :: pos, ch, rfl, ?_, hch⟩
        rw [inBoundsB_cons, Bool.and_eq_true, decide_eq_true_eq]
        exact ⟨hi, hpos⟩
      · rintro ⟨pos, ch, heq, hpos, hch⟩
        cases pos with
        | nil =>
          rw [inBoundsB_cons_nil] at hpos
          cases hpos
        | cons a pos' =>
          rw [inBoundsB_cons, Bool.and_eq_true, decide_eq_true_eq] at hpos
          injection heq with h1 h2
          subst h1
          subst h2
          exact ⟨hpos.1, pos', ch, rfl, hpos.2, hch⟩

/-- With channels_first=False, `dense` is the raw channel-last scatter. -/
theorem dense_false_eq (t : SparseConvTensor) : t.dense false = t.denseCL := rfl

/-- With channels_first=True, `dense` permutes the channel-last scatter by
the source's `trans_params`. -/
theorem dense_true_eq (t : SparseConvTensor) :
    t.dense true = permuteDense t.denseCL
      (listInsert 1 (t.spatial_shape.length + 1)
        (List.range (t.spatial_shape.length + 1))) := rfl

/-- Entry of the channel-last dense result at a split index tuple. -/
theorem denseCL_entry_concat (t : SparseConvTensor) (pos : List Nat) (ch : Nat) :
    t.denseCL.entry (pos ++ [ch]) =
      (scatter_nd t.indices t.features t.featChannels pos).getD ch 0 := by
  show (scatter_nd t.indices t.features t.featChannels (pos ++ [ch]).dropLast).getD
      ((pos ++ [ch]).getLastD 0) 0 = _
  rw [List.dropLast_concat, List.getLastD_concat]

/-- Reading through a map over an index range. -/
theorem getD_map_range (f : Nat → Int) (C ch : Nat) (h : ch < C) (d : Int) :
    ((List.range C).map f).getD ch d = f ch := by
  have hlen : ch < ((List.range C).map f).length := by simpa using h
  rw [List.getD_eq_getElem _ _ hlen, List.getElem_map, List.getElem_range]

/-- Rebuilding a list from its `getD` reads over its index range. -/
theorem map_getD_range {α : Type} (l : List α) (d : α) :
    (List.range l.length).map (fun j => l.getD j d) = l := by
  induction l with
  | nil => rfl
  | cons a l ih =>
    rw [List.length_cons, List.range_succ_eq_map, List.map_cons, List.map_map]
    have hcomp : ((fun j => (a :: l).getD j d) ∘ Nat.succ) = fun j => l.getD j d := by
      funext j
      exact List.getD_cons_succ
    rw [hcomp, ih]
    rfl

/-- Reading a concat list exactly at the boundary gives the appended item. -/
theorem getD_concat_length {α : Type} (l : List α) (y : α) (d : α) :
    (l ++ [y]).getD l.length d = y := by
  induction l with
  | nil => rfl
  | cons a l ih =>
    rw [List.cons_append, List.length_cons, List.getD_cons_succ]
    exact ih

/-- findIdx through a map applies the mapped function to the predicate. -/
theorem findIdx_map_eq {α β : Type} (p : β → Bool) (f : α → β) (l : List α) :
    (l.map f).findIdx p = l.findIdx fun a => p (f a) := by
  induction l with
  | nil => rfl
  | cons a l ih => rw [List.map_cons, List.findIdx_cons, List.findIdx_cons, ih]

/-- Position of a value inside `List.range`. -/
theorem findIdx_range_self (k : Nat) :
    ∀ i, i < k → (List.range k).findIdx (· == i) = i := by
  induction k with
  | zero => intro i h; omega
  | succ k ih =>
    intro i h
    rw [List.range_succ_eq_map, List.findIdx_cons]
    cases i with
    | zero => simp
    | succ m =>
      have h0 : ((0 : Nat) == m + 1) = false := by simp
      rw [h0, cond_false, findIdx_map_eq]
      have heqf : (fun a => (Nat.succ a == m + 1)) = (· == m) := by
        funext a
        simp [Nat.succ_eq_add_one]
      rw [heqf, ih m (by omega)]

/-- The permutation the source builds: `list(range(ndim + 1))` with
`ndim + 1` inserted at position 1. -/
theorem listInsert_one_range (k : Nat) :
    listInsert 1 (k + 1) (List.range (k + 1)) =
      0 :: (k + 1) :: List.map Nat.succ (List.range k) := by
  rw [List.range_succ_eq_map, listInsert]
  rfl

/-- Looking up axis 0 in trans_params. -/
theorem findIdx_tp_zero (k : Nat) :
    (0 :: (k + 1) :: List.map Nat.succ (List.range k)).findIdx (· == 0) = 0 := by
  rw [List.findIdx_cons]
  simp

/-- Looking up the channel axis in trans_params. -/
theorem findIdx_tp_last (k : Nat) :
    (0 :: (k + 1) :: List.map Nat.succ (List.range k)).findIdx (· == (k + 1)) = 1 := by
  rw [List.findIdx_cons]
  have h0 : ((0 : Nat) == k + 1) = false := by simp
  rw [h0, cond_false, List.findIdx_cons]
  simp

/-- Looking up a spatial axis in trans_params. -/
theorem findIdx_tp_mid (k j : Nat) (h : j < k) :
    (0 :: (k + 1) :: List.map Nat.succ (List.range k)).findIdx (· == (j + 1)) =
      j + 2 := by
  rw [List.findIdx_cons]
  have h0 : ((0 : Nat) == j + 1) = false := by simp
  rw [h0, cond_false, List.findIdx_cons]
  have h1 : ((k + 1 : Nat) == j + 1) = false := by
    simp
    omega
  rw [h1, cond_false, findIdx_map_eq]
  have heqf : (fun a => (Nat.succ a == j + 1)) = (· == j) := by
    funext a
    simp [Nat.succ_eq_add_one]
  rw [heqf, findIdx_range_self k j h]

/-- Projection: from_dense builds its features by mapping the feature-row
extraction over the active coordinates. -/
theorem from_dense_features (x : DenseTensor) :
    (SparseConvTensor.from_dense x).features =
      (activeCoords x).map (featureRow x (x.shape.getLastD 0)) := rfl

/-- Projection: from_dense stores the active coordinates as its indices. -/
theorem from_dense_indices (x : DenseTensor) :
    (SparseConvTensor.from_dense x).indices = activeCoords x := rfl

/-- Projection: from_dense takes the channel count from the last shape
entry. -/
theorem from_dense_featChannels (x : DenseTensor) :
    (SparseConvTensor.from_dense x).featChannels = x.shape.getLastD 0 := rfl

/-- Projection: from_dense takes the spatial shape from `x.shape[1:-1]`. -/
theorem from_dense_spatial (x : DenseTensor) :
    (SparseConvTensor.from_dense x).spatial_shape = (x.shape.drop 1).dropLast := rfl

/-- Projection: from_dense takes the batch size from `x.shape[0]`. -/
theorem from_dense_batch (x : DenseTensor) :
    (SparseConvTensor.from_dense x).batch_size = x.shape.headD 0 := rfl

/-- Shape of the channel-last dense result. -/
theorem denseCL_shape (t : SparseConvTensor) :
    t.denseCL.shape = t.batch_size :: t.spatial_shape ++ [t.featChannels] := rfl

/-- Entry of a permuted dense tensor. -/
theorem permuteDense_entry (d : DenseTensor) (p : List Nat) (idx : List Nat) :
    (permuteDense d p).entry idx =
      d.entry ((List.range p.length).map
        (fun j => idx.getD (p.findIdx (· == j)) 0)) := rfl

/-! Claim theorems. -/

/-- C6: find_indice_pair is a pure lookup with no eviction: a None key gives
None, a freshly constructed tensor has an empty cache and every lookup on it
gives None, a present key returns the stored rulebook, an absent key gives
None; being a function of the tensor value, it modifies nothing. -/
theorem spconv_C6 (t : SparseConvTensor) (k : Nat) (rb : Rulebook)
    (f : List (List Int)) (C : Nat) (ind : List (List Nat)) (ss : List Nat)
    (bs : Nat) (g : Option Nat) :
    t.find_indice_pair none = none
    ∧ (mkSparseConvTensor f C ind ss bs g).indice_dict = []
    ∧ (mkSparseConvTensor f C ind ss bs g).find_indice_pair (some k) = none
    ∧ (t.indice_dict.lookup k = some rb →
        t.find_indice_pair (some k) = some rb)
    ∧ (t.indice_dict.lookup k = none →
        t.find_indice_pair (some k) = none) := by
  refine ⟨rfl, rfl, rfl, ?_, ?_⟩
  · intro h
    simp [SparseConvTensor.find_indice_pair, h]
  · intro h
    simp [SparseConvTensor.find_indice_pair, h]

/-- C8: spatial_size is the product of the spatial shape, and sparity is the
coordinate-row count divided by the product of spatial volume and batch
size. -/
theorem spconv_C8 (t : SparseConvTensor) :
    t.spatial_size = t.spatial_shape.prod
    ∧ t.sparity = (t.indices.length : ℚ) /
        ((t.spatial_shape.prod : ℚ) * (t.batch_size : ℚ)) := by
  refine ⟨npProd_eq_prod t.spatial_shape, ?_⟩
  rw [SparseConvTensor.sparity, npProd_eq_prod, div_div]

/-- C10: RemoveGrid.forward returns the input tensor with only the grid
field cleared: grid becomes None and features, indices, spatial shape,
batch size, channel count and the rulebook cache are unchanged. -/
theorem spconv_C10 (t : SparseConvTensor) :
    (RemoveGrid_forward t).grid = none
    ∧ (RemoveGrid_forward t).features = t.features
    ∧ (RemoveGrid_forward t).indices = t.indices
    ∧ (RemoveGrid_forward t).spatial_shape = t.spatial_shape
    ∧ (RemoveGrid_forward t).batch_size = t.batch_size
    ∧ (RemoveGrid_forward t).indice_dict = t.indice_dict
    ∧ (RemoveGrid_forward t).featChannels = t.featChannels :=
  ⟨rfl, rfl, rfl, rfl, rfl, rfl, rfl⟩

/-- C7: the rulebook build is deterministic — two builds on equal input
coordinates, equal kernel configuration, equal mode and equal cached state
produce identical rulebooks (identical output coordinate ordering and pair
lists). -/
theorem spconv_C7 (c₁ c₂ : List (List Nat)) (cfg₁ cfg₂ : ConvConfig)
    (m₁ m₂ : ConvMode) (r₁ r₂ : Option Rulebook)
    (hc : c₁ = c₂) (hcfg : cfg₁ = cfg₂) (hm : m₁ = m₂) (hr : r₁ = r₂) :
    buildRulebook c₁ cfg₁ m₁ r₁ = buildRulebook c₂ cfg₂ m₂ r₂ := by
  subst hc
  subst hcfg
  subst hm
  subst hr
  rfl

/-- Witness for C7 at the spec's section 8 example scenario (two active
sites, 3×3 kernel, stride 1, padding 1, submanifold): the model produces
exactly the pair list the spec prescribes, and two builds agree. -/
theorem spconv_C7_witness :
    (buildSubmanifold [[0, 0, 0], [0, 1, 1]] cfgC7).pairs =
        [(4, 0, 0), (8, 0, 1), (0, 1, 0), (4, 1, 1)]
    ∧ buildRulebook [[0, 0, 0], [0, 1, 1]] cfgC7 ConvMode.submanifold none =
        buildRulebook [[0, 0, 0], [0, 1, 1]] cfgC7 ConvMode.submanifold none :=
  ⟨by decide, spconv_C7 _ _ _ _ _ _ _ _ rfl rfl rfl rfl⟩

/-- C1 fails on the code: on a tensor with two equal coordinate rows,
dense() raises nothing and returns a defined array in which the second
feature row has silently overwritten the first. -/
theorem spconv_C1_counterexample :
    tC1.indices.getD 0 [] = tC1.indices.getD 1 []
    ∧ (tC1.dense false).entry [0, 0, 0] = 2
    ∧ (tC1.dense false).entry [0, 0, 0] ≠ (tC1.features.getD 0 []).getD 0 0 := by
  decide

/-- C1 amended: overlapping coordinates are not a defined error — dense()
applies the scatter assignments in row order, so the array entry at a
coordinate is the feature row of the LAST index row carrying it, earlier
rows at the same coordinate being silently overwritten. -/
theorem spconv_C1_amended (t : SparseConvTensor) (l₁ l₂ : List (List Nat))
    (u₁ u₂ : List (List Int)) (r : List Int) (pos : List Nat) (ch : Nat)
    (hind : t.indices = l₁ ++ pos :: l₂) (hfeat : t.features = u₁ ++ r :: u₂)
    (hlen : l₁.length = u₁.length) (hlast : pos ∉ l₂) :
    (t.dense false).entry (pos ++ [ch]) = r.getD ch 0 := by
  rw [dense_false_eq, denseCL_entry_concat, hind, hfeat,
    scatter_nd_last l₁ l₂ u₁ u₂ r t.featChannels pos hlen hlast]

/-- Witness for the amended C1: on the duplicate-coordinate tensor the entry
at the duplicated coordinate is the second feature row. -/
theorem spconv_C1_witness :
    (tC1.dense false).entry [0, 0, 0] = ([2] : List Int).getD 0 0 :=
  spconv_C1_amended tC1 [[0, 0]] [] [[1]] [] [2] [0, 0] 0 rfl rfl rfl
    (by decide)

/-- C5: from_dense produces a row-aligned tensor: features and indices have
the same number of rows, and each feature row equals the dense input's
channel vector at the coordinate stored in the same row of indices. -/
theorem spconv_C5 (x : DenseTensor) :
    (SparseConvTensor.from_dense x).features.length =
        (SparseConvTensor.from_dense x).indices.length
    ∧ ∀ i ch, i < (SparseConvTensor.from_dense x).indices.length →
        ch < (SparseConvTensor.from_dense x).featChannels →
        ((SparseConvTensor.from_dense x).features.getD i []).getD ch 0 =
          x.entry ((SparseConvTensor.from_dense x).indices.getD i [] ++ [ch]) := by
  constructor
  · rw [from_dense_features, from_dense_indices, List.length_map]
  · intro i ch hi hch
    rw [from_dense_indices] at hi
    rw [from_dense_featChannels] at hch
    rw [from_dense_features, from_dense_indices]
    have hmlen : i < ((activeCoords x).map
        (featureRow x (x.shape.getLastD 0))).length := by
      rw [List.length_map]
      exact hi
    rw [List.getD_eq_getElem _ _ hmlen, List.getElem_map, featureRow,
      getD_map_range _ _ _ hch, List.getD_eq_getElem _ _ hi]

/-- C2 fails on the code: in the dense input xC2 the position (0, 0) is
present (in bounds) but its feature vector is all zero, and from_dense drops
it — only the nonzero position (0, 1) yields a coordinate row. -/
theorem spconv_C2_counterexample :
    inBoundsB (xC2.shape.headD 0 :: (xC2.shape.drop 1).dropLast) [0, 0] = true
    ∧ xC2.entry [0, 0, 0] = 0
    ∧ [0, 0] ∉ (SparseConvTensor.from_dense xC2).indices
    ∧ (SparseConvTensor.from_dense xC2).indices = [[0, 1]] := by
  decide

/-- C2 amended: from_dense's activity predicate is feature-value-dependent —
an in-bounds batch+spatial position yields a coordinate row exactly when at
least one of its channel values is nonzero, so positions whose feature
vector is all zero are dropped. -/
theorem spconv_C2_amended (x : DenseTensor) (pos : List Nat)
    (h : inBoundsB (x.shape.headD 0 :: (x.shape.drop 1).dropLast) pos = true) :
    pos ∈ (SparseConvTensor.from_dense x).indices ↔
      activeAtB x (x.shape.getLastD 0) pos = true := by
  rw [from_dense_indices, activeCoords, List.mem_filter]
  constructor
  · rintro ⟨-, hact⟩
    exact hact
  · intro hact
    exact ⟨(mem_allCoords _ pos).mpr h, hact⟩

/-- Witness for the amended C2 at the concrete input xC2 and the nonzero
position (0, 1). -/
theorem spconv_C2_witness :
    inBoundsB (xC2.shape.headD 0 :: (xC2.shape.drop 1).dropLast) [0, 1] = true
    ∧ ([0, 1] ∈ (SparseConvTensor.from_dense xC2).indices ↔
        activeAtB xC2 (xC2.shape.getLastD 0) [0, 1] = true) :=
  ⟨by decide, spconv_C2_amended xC2 [0, 1] (by decide)⟩

/-- C3: on a tensor with distinct, in-bounds coordinate rows and an [N, C]
feature matrix, dense(channels_first=False) has shape
[batch_size, *spatial_shape, C], carries each site's feature row at its
coordinate, and is zero everywhere else. -/
theorem spconv_C3 (t : SparseConvTensor)
    (hrows : t.features.length = t.indices.length)
    (hcols : ∀ row ∈ t.features, row.length = t.featChannels)
    (hnd : t.indices.Nodup)
    (hib : ∀ c ∈ t.indices,
      inBoundsB (t.batch_size :: t.spatial_shape) c = true) :
    (t.dense false).shape = t.batch_size :: t.spatial_shape ++ [t.featChannels]
    ∧ (∀ i, i < t.indices.length → ∀ ch,
        (t.dense false).entry (t.indices.getD i [] ++ [ch]) =
          (t.features.getD i []).getD ch 0)
    ∧ (∀ pos, pos ∉ t.indices → ∀ ch,
        (t.dense false).entry (pos ++ [ch]) = 0) := by
  refine ⟨rfl, ?_, ?_⟩
  · intro i hi ch
    have hif : i < t.features.length := by omega
    rw [dense_false_eq, denseCL_entry_concat]
    have hsplit : t.indices =
        t.indices.take i ++ t.indices.getD i [] :: t.indices.drop (i + 1) := by
      rw [List.getD_eq_getElem _ _ hi, List.getElem_cons_drop t.indices i hi,
        List.take_append_drop]
    have hsplitf : t.features =
        t.features.take i ++ t.features.getD i [] :: t.features.drop (i + 1) := by
      rw [List.getD_eq_getElem _ _ hif, List.getElem_cons_drop t.features i hif,
        List.take_append_drop]
    have hlen : (t.indices.take i).length = (t.features.take i).length := by
      rw [List.length_take, List.length_take, hrows]
    have hlast : t.indices.getD i [] ∉ t.indices.drop (i + 1) := by
      intro hmem
      rcases List.mem_iff_getElem.mp hmem with ⟨j, hj, hje⟩
      rw [List.getElem_drop] at hje
      rw [List.getD_eq_getElem _ _ hi] at hje
      have hji : i + 1 + j = i := (hnd.getElem_inj_iff).mp hje
      omega
    have hres := scatter_nd_last (t.indices.take i) (t.indices.drop (i + 1))
      (t.features.take i) (t.features.drop (i + 1)) (t.features.getD i [])
      t.featChannels (t.indices.getD i []) hlen hlast
    rw [← hsplit, ← hsplitf] at hres
    rw [hres]
  · intro pos hpos ch
    rw [dense_false_eq, denseCL_entry_concat,
      scatter_nd_not_mem _ _ _ _ hpos, getD_replicate_zero]

/-- Witness for C3 at the concrete one-site tensor tC3: the hypotheses hold,
the scattered entry carries the feature row, and an inactive position reads
zero. -/
theorem spconv_C3_witness :
    tC3.indices.Nodup
    ∧ (tC3.dense false).shape =
        tC3.batch_size :: tC3.spatial_shape ++ [tC3.featChannels]
    ∧ (tC3.dense false).entry (tC3.indices.getD 0 [] ++ [0]) =
        (tC3.features.getD 0 []).getD 0 0
    ∧ (tC3.dense false).entry ([0, 0] ++ [0]) = 0 := by
  have h := spconv_C3 tC3 rfl (by decide) (by decide) (by decide)
  exact ⟨by decide, h.1, h.2.1 0 (by decide) 0, h.2.2 [0, 0] (by decide) 0⟩

/-- Shape of a permuted dense tensor. -/
theorem permuteDense_shape (d : DenseTensor) (p : List Nat) :
    (permuteDense d p).shape = p.map (fun j => d.shape.getD j 0) := rfl

/-- Applying the inverse of trans_params to a channels-first index tuple
recovers the channel-last index tuple: batch stays first, the channel moves
to the end, the spatial components keep their order. -/
theorem tp_map_entry (k b ch : Nat) (sp : List Nat) (hsp : sp.length = k) :
    (List.range (0 :: (k + 1) :: (List.range k).map Nat.succ).length).map
      (fun j => (b :: ch :: sp).getD
        ((0 :: (k + 1) :: (List.range k).map Nat.succ).findIdx (· == j)) 0)
      = b :: (sp ++ [ch]) := by
  have hlen : (0 :: (k + 1) :: (List.range k).map Nat.succ).length = k + 2 := by
    simp
  have hlen2 : (b :: (sp ++ [ch])).length = k + 2 := by
    simp [hsp]
  rw [hlen]
  conv_rhs => rw [← map_getD_range (b :: (sp ++ [ch])) 0]
  rw [hlen2]
  apply List.map_congr_left
  intro j hj
  have hjk : j < k + 2 := List.mem_range.mp hj
  show (b :: ch :: sp).getD
      ((0 :: (k + 1) :: (List.range k).map Nat.succ).findIdx (· == j)) 0
    = (b :: (sp ++ [ch])).getD j 0
  rcases Nat.lt_or_ge j 1 with h0 | h1
  · have hj0 : j = 0 := by omega
    subst hj0
    rw [findIdx_tp_zero]
    rfl
  · rcases Nat.lt_or_ge j (k + 1) with hmid | hlast
    · obtain ⟨m, rfl⟩ : ∃ m, j = m + 1 := ⟨j - 1, by omega⟩
      have hmk : m < k := by omega
      rw [findIdx_tp_mid k m hmk]
      show (b :: ch :: sp).getD (m + 2) 0 = (b :: (sp ++ [ch])).getD (m + 1) 0
      rw [show m + 2 = (m + 1) + 1 from rfl, List.getD_cons_succ,
        List.getD_cons_succ, List.getD_cons_succ,
        List.getD_append _ _ _ m (by omega)]
    · have hjl : j = k + 1 := by omega
      subst hjl
      rw [findIdx_tp_last]
      show ch = (b :: (sp ++ [ch])).getD (k + 1) 0
      rw [List.getD_cons_succ, show k = sp.length from hsp.symm,
        getD_concat_length]

/-- C4: dense() with channels_first=True — the default used by
ToDense.forward — is exactly the channels_first=False result with the
channel axis moved from the last position to position 1: its shape is
[batch_size, C, *spatial_shape] and its entry at (b, ch, spatial...) is the
channel-last entry at (b, spatial..., ch). -/
theorem spconv_C4 (t : SparseConvTensor) :
    (t.dense true).shape = t.batch_size :: t.featChannels :: t.spatial_shape
    ∧ ToDense_forward t = t.dense true
    ∧ ∀ b ch sp, sp.length = t.spatial_shape.length →
        (t.dense true).entry (b :: ch :: sp) =
          (t.dense false).entry (b :: (sp ++ [ch])) := by
  have htp := listInsert_one_range t.spatial_shape.length
  refine ⟨?_, rfl, ?_⟩
  · rw [dense_true_eq, htp]
    simp only [permuteDense_shape, denseCL_shape, List.cons_append]
    rw [List.map_cons, List.map_cons, List.map_map]
    congr 1
    congr 1
    · show (t.batch_size :: (t.spatial_shape ++ [t.featChannels])).getD
          (t.spatial_shape.length + 1) 0 = t.featChannels
      rw [List.getD_cons_succ]
      exact getD_concat_length t.spatial_shape t.featChannels 0
    · have hcongr : ∀ j ∈ List.range t.spatial_shape.length,
          ((fun j => (t.batch_size ::
              (t.spatial_shape ++ [t.featChannels])).getD j 0) ∘ Nat.succ) j
            = (fun j => t.spatial_shape.getD j 0) j := by
        intro j hj
        show (t.batch_size :: (t.spatial_shape ++ [t.featChannels])).getD
            (j + 1) 0 = t.spatial_shape.getD j 0
        rw [List.getD_cons_succ,
          List.getD_append _ _ _ j (List.mem_range.mp hj)]
      rw [List.map_congr_left hcongr, map_getD_range]
  · intro b ch sp hsp
    rw [dense_true_eq, htp, permuteDense_entry,
      tp_map_entry t.spatial_shape.length b ch sp hsp, dense_false_eq]

/-- C9: round trip at the system boundary — for a channel-last dense tensor,
from_dense followed by dense(channels_first=False) reproduces the input:
same shape, and the same entry at every in-bounds index tuple (active
positions carry their feature rows back, positions dropped as inactive had
all-zero features and are zero-filled by the scatter). -/
theorem spconv_C9 (x : DenseTensor) (hx : 2 ≤ x.shape.length) :
    ((SparseConvTensor.from_dense x).dense false).shape = x.shape
    ∧ ∀ c, inBoundsB x.shape c = true →
        ((SparseConvTensor.from_dense x).dense false).entry c = x.entry c := by
  obtain ⟨s0, rest, hshape⟩ : ∃ s0 rest, x.shape = s0 :: rest := by
    cases hs : x.shape with
    | nil => rw [hs] at hx; simp at hx
    | cons a l => exact ⟨a, l, rfl⟩
  obtain ⟨ys, y, hrest⟩ : ∃ ys yy, rest = ys ++ [yy] := by
    rcases List.eq_nil_or_concat rest with h | ⟨L, bb, h⟩
    · subst h
      rw [hshape] at hx
      simp at hx
    · exact ⟨L, bb, by rw [h, List.concat_eq_append]⟩
  have hbatch : x.shape.headD 0 = s0 := by
    rw [hshape]
    rfl
  have hspatial : (x.shape.drop 1).dropLast = ys := by
    rw [hshape, hrest]
    show (ys ++ [y]).dropLast = ys
    exact List.dropLast_concat
  have hC : x.shape.getLastD 0 = y := by
    rw [hshape, hrest]
    show (s0 :: (ys ++ [y])).getLastD 0 = y
    rw [← List.cons_append]
    exact List.getLastD_concat 0 y (s0 :: ys)
  constructor
  · rw [dense_false_eq, denseCL_shape, from_dense_batch, from_dense_spatial,
      from_dense_featChannels, hbatch, hspatial, hC, hshape, hrest,
      List.cons_append]
  · intro c hc
    rw [hshape, hrest, ← List.cons_append] at hc
    obtain ⟨pos, ch, rfl, hin, hch⟩ := (inBoundsB_concat y (s0 :: ys) c).mp hc
    rw [dense_false_eq, denseCL_entry_concat, from_dense_indices,
      from_dense_features, from_dense_featChannels, hC]
    by_cases hmem : pos ∈ activeCoords x
    · rw [scatter_nd_map _ _ _ _ hmem, featureRow, getD_map_range _ _ _ hch]
    · rw [scatter_nd_not_mem _ _ _ _ hmem, getD_replicate_zero]
      have hposmem : pos ∈ allCoords
          (x.shape.headD 0 :: (x.shape.drop 1).dropLast) := by
        apply (mem_allCoords _ pos).mpr
        rw [hbatch, hspatial]
        exact hin
      have hnact : ¬ activeAtB x (x.shape.getLastD 0) pos = true := fun hact =>
        hmem (List.mem_filter.mpr ⟨hposmem, hact⟩)
      have hzero : x.entry (pos ++ [ch]) = 0 := by
        by_contra hne
        apply hnact
        rw [activeAtB, List.any_eq_true]
        refine ⟨ch, ?_, bne_iff_ne.mpr hne⟩
        rw [hC]
        exact List.mem_range.mpr hch
      rw [hzero]

/-- Witness for C9 at the concrete input xC9 and its nonzero position. -/
theorem spconv_C9_witness :
    2 ≤ xC9.shape.length
    ∧ ((SparseConvTensor.from_dense xC9).dense false).entry [0, 1, 0] =
        xC9.entry [0, 1, 0] :=
  ⟨by decide, (spconv_C9 xC9 (by decide)).2 [0, 1, 0] (by decide)⟩
